import Mathlib

/-!
# Verification of celmech: `poincare.py` and `symplectic_evolution_operators.py`

Shallow embedding, over exact real/complex arithmetic, of the data model and
operations of the celmech Poincare module and its symplectic evolution
operators, together with theorems settling the specification claims.

Conventions used throughout:

* Python floats are modelled by `ℝ`; complex numpy arrays by `Fin n → ℂ`
  or `Matrix (Fin n) (Fin n) ℂ`.
* Exceptions raised by the source are modelled with `Except PyExc`.
* A `PoincareParticle` stores exactly the ground-truth fields that the source
  stores (`mu`, `M`, `sLambda`, `l`, `skappa`, `seta`, `ssigma`, `srho`);
  every other quantity is a derived projection, as in the source.
-/

open NormedSpace

open scoped Matrix

/-- Exceptions raised by the source code.  The source raises Python
`AttributeError` for invalid physical states and configuration problems;
an unbound bare name raises `NameError`. -/
inductive PyExc where
  | AttributeError : PyExc
  | NameError : PyExc
  deriving DecidableEq

/-- Embeds `get_re_im_components(x, y, k)` from `poincare.py` (lines 12-28):
for `k = 0` it returns `(1, 0)`; otherwise it sums binomial-weighted terms,
the even-`l` terms (with sign `(-1)^(l//2)`) into the first component and the
odd-`l` terms (with sign `(-1)^((l-1)//2)`) into the second.  The source
computes with sympy/numpy numbers; the definition is stated over any
commutative ring. -/
def get_re_im_components {R : Type} [CommRing R] (x y : R) (k : ℤ) : R × R :=
  if k = 0 then (1, 0)
  else
    let absk := k.natAbs
    let sgnk : R := ((Int.sign k : ℤ) : R)
    (∑ l ∈ Finset.range (absk + 1),
        if l % 2 = 0 then (absk.choose l : R) * (sgnk * y) ^ l * x ^ (absk - l) * (-1) ^ (l / 2)
        else 0,
     ∑ l ∈ Finset.range (absk + 1),
        if l % 2 = 1 then (absk.choose l : R) * (sgnk * y) ^ l * x ^ (absk - l) * (-1) ^ ((l - 1) / 2)
        else 0)

/-- Stored state of a `PoincareParticle` (`poincare.py` lines 42-212): the
canonical masses `mu`, `M` and the specific canonical variables
`sLambda, l, skappa, seta, ssigma, srho`, which are the only mutable ground
truth of a particle. -/
@[ext]
structure PoincareParticle where
  mu : ℝ
  M : ℝ
  sLambda : ℝ
  l : ℝ
  skappa : ℝ
  seta : ℝ
  ssigma : ℝ
  srho : ℝ

/-- Derived massive variable `kappa = sqrt(mu) * skappa` (line 267). -/
noncomputable def PoincareParticle.kappa (p : PoincareParticle) : ℝ :=
  Real.sqrt p.mu * p.skappa

/-- Derived massive variable `eta = sqrt(mu) * seta` (line 273). -/
noncomputable def PoincareParticle.eta (p : PoincareParticle) : ℝ :=
  Real.sqrt p.mu * p.seta

/-- Derived massive variable `sigma = sqrt(mu) * ssigma` (line 280). -/
noncomputable def PoincareParticle.sigma (p : PoincareParticle) : ℝ :=
  Real.sqrt p.mu * p.ssigma

/-- Derived massive variable `rho = sqrt(mu) * srho` (line 287). -/
noncomputable def PoincareParticle.rho (p : PoincareParticle) : ℝ :=
  Real.sqrt p.mu * p.srho

/-- Derived massive action `Lambda = mu * sLambda` (line 294). -/
noncomputable def PoincareParticle.Lambda (p : PoincareParticle) : ℝ :=
  p.mu * p.sLambda

/-- Derived massive action `Gamma = mu * (skappa^2 + seta^2) / 2` (line 301). -/
noncomputable def PoincareParticle.Gamma (p : PoincareParticle) : ℝ :=
  p.mu * (p.skappa ^ 2 + p.seta ^ 2) / 2

/-- Derived massive action `Q = mu * (ssigma^2 + srho^2) / 2` (line 308). -/
noncomputable def PoincareParticle.Q (p : PoincareParticle) : ℝ :=
  p.mu * (p.ssigma ^ 2 + p.srho ^ 2) / 2

/-- Derived specific action `sGamma = (skappa^2 + seta^2) / 2` (line 315). -/
noncomputable def PoincareParticle.sGamma (p : PoincareParticle) : ℝ :=
  (p.skappa ^ 2 + p.seta ^ 2) / 2

/-- Derived specific action `sQ = (ssigma^2 + srho^2) / 2` (line 322). -/
noncomputable def PoincareParticle.sQ (p : PoincareParticle) : ℝ :=
  (p.ssigma ^ 2 + p.srho ^ 2) / 2

/-- Derived eccentricity read (`poincare.py` lines 337-342): with
`GbyL = sGamma / sLambda`, raise when `1 - (1 - GbyL)^2 < 0`, otherwise
return `sqrt(1 - (1 - GbyL)^2)`.  The raise is the physical-state error of
the specification (an `AttributeError` in the source). -/
noncomputable def PoincareParticle.e (p : PoincareParticle) : Except PyExc ℝ :=
  let GbyL := p.sGamma / p.sLambda
  if 1 - (1 - GbyL) * (1 - GbyL) < 0 then Except.error PyExc.AttributeError
  else Except.ok (Real.sqrt (1 - (1 - GbyL) * (1 - GbyL)))

/-- Embeds the classical-elements construction tier of
`PoincareParticle.__init__` (`poincare.py` lines 161-202) with the semimajor
axis supplied through `sLambda` and the eccentricity supplied through `e`:
`sGamma = sLambda * (1 - sqrt(1 - e^2))`, `sQ = (sLambda - sGamma)*(1 - cos inc)`,
`skappa = sqrt(2 sGamma) cos gamma`, `seta = sqrt(2 sGamma) sin gamma`,
`ssigma = sqrt(2 sQ) cos q`, `srho = sqrt(2 sQ) sin q`.  Passing `inc = 0`
reproduces the source's default `sQ = 0` (no inclination input), and
`gamma = q = l = 0` reproduce the remaining defaults. -/
noncomputable def PoincareParticle.mkFromElements
    (mu M sLambda l e gamma inc q : ℝ) : PoincareParticle :=
  let sGamma := sLambda * (1 - Real.sqrt (1 - e ^ 2))
  let sQ := (sLambda - sGamma) * (1 - Real.cos inc)
  { mu := mu, M := M, sLambda := sLambda, l := l
    skappa := Real.sqrt (2 * sGamma) * Real.cos gamma
    seta := Real.sqrt (2 * sGamma) * Real.sin gamma
    ssigma := Real.sqrt (2 * sQ) * Real.cos q
    srho := Real.sqrt (2 * sQ) * Real.sin q }

/-- Embeds `PoincareHamiltonian.add_Hkep_term` (`poincare.py` lines 571-578),
as a function of the numeric values of its symbols: it adds the term
`-G^2 M^2 mu^3 / (2 Lambda^2)` to `H`. -/
noncomputable def add_Hkep_term (H G M mu Lambda : ℝ) : ℝ :=
  H + -G ^ 2 * M ^ 2 * mu ^ 3 / (2 * Lambda ^ 2)

/-- Modelled from the spec: the specification's claimed closed form of the
Keplerian term, `-G^2 M_i^2 mu_i^3 / (2 Lambda_i)`, i.e. inversely
proportional to the FIRST power of `Lambda_i` (spec section 4.3).  Written
for comparison against `add_Hkep_term`, which embeds the source. -/
noncomputable def add_Hkep_term_specForm (H G M mu Lambda : ℝ) : ℝ :=
  H + -G ^ 2 * M ^ 2 * mu ^ 3 / (2 * Lambda)

/-- One body's six massive canonical variables, in the per-body slot order
`(kappa, eta, Lambda, l, sigma, rho)` that every `apply_to_state_vector`
method of `symplectic_evolution_operators.py` uses after reshaping the flat
state vector to shape `(-1, 6)` (line 18-19). -/
@[ext]
structure PlanetState where
  kappa : ℝ
  eta : ℝ
  Lambda : ℝ
  l : ℝ
  sigma : ℝ
  rho : ℝ

/-- Embeds the flat list of initial values built by `Poincare.__init__`
(`poincare.py` lines 421-437): for each particle in order the q-values
`[l, eta, rho]` are appended, then for each particle in order the p-values
`[Lambda, kappa, sigma]`, and the full vector is the q-block followed by the
p-block. -/
noncomputable def Poincare.initial_values (ps : List PoincareParticle) : List ℝ :=
  (ps.flatMap fun p => [p.l, p.eta, p.rho]) ++
    (ps.flatMap fun p => [p.Lambda, p.kappa, p.sigma])

/-- Modelled from the spec: the specification's claimed blockwise ordering of
the flat phase-space vector, `[l_1..l_{N-1}, eta_1..eta_{N-1},
rho_1..rho_{N-1}, Lambda_1..Lambda_{N-1}, kappa_1..kappa_{N-1},
sigma_1..sigma_{N-1}]` (spec section 3).  Written for comparison against
`Poincare.initial_values`, which embeds the source. -/
noncomputable def Poincare.initial_values_specForm (ps : List PoincareParticle) : List ℝ :=
  ps.map PoincareParticle.l ++ ps.map PoincareParticle.eta ++
    ps.map PoincareParticle.rho ++ ps.map PoincareParticle.Lambda ++
    ps.map PoincareParticle.kappa ++ ps.map PoincareParticle.sigma

/-- Embeds the reads of `PoincareParticles.__getitem__` (`poincare.py` lines
385-394): with `j = i - 1`, the particle is rebuilt from
`val[3j], val[3j+1], val[3j+2]` (read as `l, eta, rho`) and
`val[Ndof+3j], val[Ndof+3j+1], val[Ndof+3j+2]` (read as `Lambda, kappa,
sigma`).  Out-of-range reads default to 0 here; the theorems only use
in-range indices. -/
noncomputable def PoincareParticles.getitem (val : List ℝ) (Ndof j : ℕ) : PlanetState :=
  { l := val.getD (j * 3) 0
    eta := val.getD (j * 3 + 1) 0
    rho := val.getD (j * 3 + 2) 0
    Lambda := val.getD (Ndof + j * 3) 0
    kappa := val.getD (Ndof + j * 3 + 1) 0
    sigma := val.getD (Ndof + j * 3 + 2) 0 }

/-- Decodes one reshaped row of the flat state vector in the fixed per-body
slot order `(kappa, eta, Lambda, l, sigma, rho)`. -/
def rowToPlanetState (row : Fin 6 → ℝ) : PlanetState :=
  { kappa := row 0, eta := row 1, Lambda := row 2, l := row 3
    sigma := row 4, rho := row 5 }

/-- Decodes the whole reshaped state vector
(`EvolutionOperator._state_vector_to_individual_vectors`, which reshapes to
`(-1, 6)`) into per-body `PlanetState`s. -/
def perBody {n : ℕ} (vecs : Fin n → Fin 6 → ℝ) : Fin n → PlanetState :=
  fun i => rowToPlanetState (vecs i)

/-- Embeds `KeplerianEvolutionOperator.apply`
(`symplectic_evolution_operators.py` lines 45-65): each body's mean
longitude advances by `dt * (G*M)^2 m^3 / Lambda^3` computed from the body's
current `Lambda`; nothing else changes.  `GGMMmmm = (G*M)^2 * m^3` is the
constant stored at construction. -/
noncomputable def KeplerianEvolutionOperator.apply {n : ℕ} (G dt : ℝ)
    (m M : Fin n → ℝ) (ps : Fin n → PlanetState) : Fin n → PlanetState :=
  fun i =>
    { ps i with
        l := (ps i).l +
          dt * ((G * M i) ^ 2 * m i ^ 3 / (ps i).Lambda / (ps i).Lambda / (ps i).Lambda) }

/-- Embeds `KeplerianEvolutionOperator.apply_to_state_vector` (lines 52-58)
on the reshaped `(-1, 6)` view: column 2 is read as `Lambda`, and
`dt * GGMMmmm / L^3` is added to column 3. -/
noncomputable def KeplerianEvolutionOperator.apply_to_state_vector {n : ℕ} (G dt : ℝ)
    (m M : Fin n → ℝ) (vecs : Fin n → Fin 6 → ℝ) : Fin n → Fin 6 → ℝ :=
  fun i j =>
    if j = 3 then
      vecs i 3 + dt * ((G * M i) ^ 2 * m i ^ 3 / vecs i 2 / vecs i 2 / vecs i 2)
    else vecs i j

/-- Module constant `_rt2 = sqrt(2)` of `symplectic_evolution_operators.py`. -/
noncomputable def _rt2 : ℝ := Real.sqrt 2

/-- Module constant `_rt2_inv = 1 / _rt2`. -/
noncomputable def _rt2_inv : ℝ := 1 / _rt2

/-- The part of the particle state that `LinearSecularEvolutionOperator`
touches: the massive variables `kappa, eta, sigma, rho` of every non-central
body. -/
@[ext]
structure SecularState (n : ℕ) where
  kappa : Fin n → ℝ
  eta : Fin n → ℝ
  sigma : Fin n → ℝ
  rho : Fin n → ℝ

/-- Stored data of a `LinearSecularEvolutionOperator`
(`symplectic_evolution_operators.py` lines 76-92): the eccentricity and
inclination Laplace-Lagrange coupling matrices (derived once from the
Hamiltonian linearization, an external input here) and the timestep. -/
structure LinearSecularEvolutionOperator (n : ℕ) where
  ecc_matrix : Matrix (Fin n) (Fin n) ℂ
  inc_matrix : Matrix (Fin n) (Fin n) ℂ
  dt : ℝ

/-- The cached propagator `expm(-1j * dt * ecc_matrix)` (lines 82, 91). -/
noncomputable def LinearSecularEvolutionOperator.ecc_operator_matrix {n : ℕ}
    (op : LinearSecularEvolutionOperator n) : Matrix (Fin n) (Fin n) ℂ :=
  exp ℂ ((-Complex.I * (op.dt : ℂ)) • op.ecc_matrix)

/-- The cached propagator `expm(-1j * dt * inc_matrix)` (lines 83, 92). -/
noncomputable def LinearSecularEvolutionOperator.inc_operator_matrix {n : ℕ}
    (op : LinearSecularEvolutionOperator n) : Matrix (Fin n) (Fin n) ℂ :=
  exp ℂ ((-Complex.I * (op.dt : ℂ)) • op.inc_matrix)

/-- Embeds `_get_x_vector` (lines 94-98): `x = (kappa - i eta) * _rt2_inv`. -/
noncomputable def SecularState.x_vector {n : ℕ} (s : SecularState n) : Fin n → ℂ :=
  fun i => ((s.kappa i : ℂ) - Complex.I * (s.eta i : ℂ)) * (_rt2_inv : ℂ)

/-- Embeds `_get_y_vector` (lines 100-104): `y = (sigma - i rho) * _rt2_inv`. -/
noncomputable def SecularState.y_vector {n : ℕ} (s : SecularState n) : Fin n → ℂ :=
  fun i => ((s.sigma i : ℂ) - Complex.I * (s.rho i : ℂ)) * (_rt2_inv : ℂ)

/-- Embeds `_set_x_vector` and `_set_y_vector` (lines 106-114): write back
`kappa = _rt2 * Re(x)`, `eta = _rt2 * Re(i x)`, `sigma = _rt2 * Re(y)`,
`rho = _rt2 * Re(i y)`. -/
noncomputable def SecularState.set_xy {n : ℕ} (x y : Fin n → ℂ) : SecularState n :=
  { kappa := fun i => _rt2 * (x i).re
    eta := fun i => _rt2 * (Complex.I * x i).re
    sigma := fun i => _rt2 * (y i).re
    rho := fun i => _rt2 * (Complex.I * y i).re }

/-- Embeds `LinearSecularEvolutionOperator.apply` (lines 116-122): get the
`x` and `y` vectors, multiply by the cached matrix exponentials, and write
the results back into the real variables. -/
noncomputable def LinearSecularEvolutionOperator.apply {n : ℕ}
    (op : LinearSecularEvolutionOperator n) (s : SecularState n) : SecularState n :=
  SecularState.set_xy (op.ecc_operator_matrix.mulVec s.x_vector)
    (op.inc_operator_matrix.mulVec s.y_vector)

/-- Embeds `LinearSecularEvolutionOperator.apply_to_state_vector` (lines
124-134) on the reshaped `(-1, 6)` view: `x` is read from columns `(0, 1)`
as `(kappa, eta)`, `y` from columns `(4, 5)` as `(sigma, rho)`; columns
`0, 1, 4, 5` are written back as `_rt2*Re(x')`, `-_rt2*Im(x')`,
`_rt2*Re(y')`, `-_rt2*Im(y')`, and columns 2 and 3 are untouched. -/
noncomputable def LinearSecularEvolutionOperator.apply_to_state_vector {n : ℕ}
    (op : LinearSecularEvolutionOperator n) (vecs : Fin n → Fin 6 → ℝ) :
    Fin n → Fin 6 → ℝ :=
  let x : Fin n → ℂ := fun i => ((vecs i 0 : ℂ) - Complex.I * (vecs i 1 : ℂ)) * (_rt2_inv : ℂ)
  let y : Fin n → ℂ := fun i => ((vecs i 4 : ℂ) - Complex.I * (vecs i 5 : ℂ)) * (_rt2_inv : ℂ)
  let xnew := op.ecc_operator_matrix.mulVec x
  let ynew := op.inc_operator_matrix.mulVec y
  fun i j =>
    if j = 0 then _rt2 * (xnew i).re
    else if j = 1 then -1 * _rt2 * (xnew i).im
    else if j = 4 then _rt2 * (ynew i).re
    else if j = 5 then -1 * _rt2 * (ynew i).im
    else vecs i j

/-- Gathers the secular sub-state from the reshaped flat vector: columns
`(0, 1, 4, 5)` read as `(kappa, eta, sigma, rho)`. -/
def SecularState.ofVecs {n : ℕ} (vecs : Fin n → Fin 6 → ℝ) : SecularState n :=
  { kappa := fun i => vecs i 0
    eta := fun i => vecs i 1
    sigma := fun i => vecs i 4
    rho := fun i => vecs i 5 }

/-- The part of the particle state that the resonance operators touch: the
massive variables of the inner (index 0) and outer (index 1) body. -/
@[ext]
structure ResState where
  Lambda : Fin 2 → ℝ
  l : Fin 2 → ℝ
  kappa : Fin 2 → ℝ
  eta : Fin 2 → ℝ
  sigma : Fin 2 → ℝ
  rho : Fin 2 → ℝ

/-- Stored data of a `LinearEccentricityResonancOperator`
(`symplectic_evolution_operators.py` lines 287-307): the resonance vector
`res_vec`, the orthogonal eigenvector matrix `T` of the symmetric interaction
matrix `A`, the cached `cosh(dt*eig)` and `sinh(dt*eig)` arrays, and the
cached `Ainv @ b`.  The constructor computes `T`, the eigenvalues and
`Ainv_dot_b` from `A` and `b` with numpy; here they are the operator's
stored fields, exactly as the object holds them across `apply` calls. -/
structure LinearEccentricityResonancOperator where
  res_vec : Fin 2 → ℝ
  T : Matrix (Fin 2) (Fin 2) ℝ
  cosh_lmbda_dt : Fin 2 → ℝ
  sinh_lmbda_dt : Fin 2 → ℝ
  Ainv_dot_b : Fin 2 → ℝ

/-- Stored data of a `LinearInclinationResonancOperator` (lines 154-172):
as the eccentricity operator but with no forcing vector `b`. -/
structure LinearInclinationResonancOperator where
  res_vec : Fin 2 → ℝ
  T : Matrix (Fin 2) (Fin 2) ℝ
  cosh_lmbda_dt : Fin 2 → ℝ
  sinh_lmbda_dt : Fin 2 → ℝ

/-- The vector `Lambdas_vec = [-res_vec[1], res_vec[0]]` (lines 171, 306). -/
noncomputable def LinearEccentricityResonancOperator.Lambdas_vec
    (op : LinearEccentricityResonancOperator) : Fin 2 → ℝ :=
  ![-1 * op.res_vec 1, op.res_vec 0]

/-- The matrix `Lambdas_Mtrx = inv([Lambdas_vec, [1, 1]])` (lines 172, 307),
using the Mathlib matrix inverse, which agrees with `numpy.linalg.inv`
whenever the determinant is nonzero. -/
noncomputable def LinearEccentricityResonancOperator.Lambdas_Mtrx
    (op : LinearEccentricityResonancOperator) : Matrix (Fin 2) (Fin 2) ℝ :=
  (Matrix.of ![op.Lambdas_vec, ![1, 1]])⁻¹

/-- The vector `Lambdas_vec` of the inclination operator (line 171). -/
noncomputable def LinearInclinationResonancOperator.Lambdas_vec
    (op : LinearInclinationResonancOperator) : Fin 2 → ℝ :=
  ![-1 * op.res_vec 1, op.res_vec 0]

/-- The matrix `Lambdas_Mtrx` of the inclination operator (line 172). -/
noncomputable def LinearInclinationResonancOperator.Lambdas_Mtrx
    (op : LinearInclinationResonancOperator) : Matrix (Fin 2) (Fin 2) ℝ :=
  (Matrix.of ![op.Lambdas_vec, ![1, 1]])⁻¹

/-- Embeds the `_get_Gammas` reads (lines 333-334) of the eccentricity
resonance operator: each particle's `Gamma` is `(kappa^2 + eta^2)/2` in
massive variables. -/
noncomputable def ResState.Gammas (st : ResState) : Fin 2 → ℝ :=
  fun i => (st.kappa i ^ 2 + st.eta i ^ 2) / 2

/-- Embeds the `_get_Qs` reads (lines 193-194) of the inclination resonance
operator: each particle's `Q` is `(sigma^2 + rho^2)/2` in massive
variables. -/
noncomputable def ResState.Qs (st : ResState) : Fin 2 → ℝ :=
  fun i => (st.sigma i ^ 2 + st.rho i ^ 2) / 2

/-- Embeds `_advance_eccentricity_variables` (lines 346-372): at the frozen
angle `theta = res_vec . l`, shift by the forced equilibrium, rotate into
the eigenframe, apply the hyperbolic map built from the cached
`cosh(dt*eig)` and `sinh(dt*eig)`, and map back.  Only `kappa` and `eta`
change.  The particle getters and setters make all mass normalizations
cancel, so the map acts on the massive variables exactly as written here. -/
noncomputable def LinearEccentricityResonancOperator.advance_eccentricity_variables
    (op : LinearEccentricityResonancOperator) (st : ResState) : ResState :=
  let theta := op.res_vec ⬝ᵥ st.l
  let s := Real.sin theta
  let c := Real.cos theta
  let H := op.T.transpose.mulVec (fun i => st.eta i - 0.5 * _rt2 * op.Ainv_dot_b i * s)
  let K := op.T.transpose.mulVec (fun i => st.kappa i + 0.5 * _rt2 * op.Ainv_dot_b i * c)
  let s2 := 2 * s * c
  let c2 := c * c - s * s
  let K1 : Fin 2 → ℝ := fun i =>
    op.cosh_lmbda_dt i * K i + op.sinh_lmbda_dt i * (s2 * K i + c2 * H i)
  let H1 : Fin 2 → ℝ := fun i =>
    op.cosh_lmbda_dt i * H i + op.sinh_lmbda_dt i * (c2 * K i - s2 * H i)
  let eta1 : Fin 2 → ℝ := fun i => op.T.mulVec H1 i + 0.5 * _rt2 * op.Ainv_dot_b i * s
  let kappa1 : Fin 2 → ℝ := fun i => op.T.mulVec K1 i - 0.5 * _rt2 * op.Ainv_dot_b i * c
  { st with kappa := kappa1, eta := eta1 }

/-- Embeds `LinearEccentricityResonancOperator.apply` (lines 377-385):
record `C1 = Lambdas_vec . Lambda` and `C2 = sum(Lambda) - sum(Gamma)`;
advance the eccentricity variables at the frozen resonance angle; then
rebuild `Lambda` from `Lambdas_Mtrx @ [C1, C2 + sum(Gamma_new)]`. -/
noncomputable def LinearEccentricityResonancOperator.apply
    (op : LinearEccentricityResonancOperator) (st : ResState) : ResState :=
  let C1 := op.Lambdas_vec ⬝ᵥ st.Lambda
  let C2 := (st.Lambda 0 + st.Lambda 1) - (st.Gammas 0 + st.Gammas 1)
  let st1 := op.advance_eccentricity_variables st
  let Lambdas1 := op.Lambdas_Mtrx.mulVec ![C1, C2 + (st1.Gammas 0 + st1.Gammas 1)]
  { st1 with Lambda := Lambdas1 }

/-- Embeds `_advance_inclination_variables` (lines 203-226): as the
eccentricity advance but acting on `(sigma, rho)` without a forcing
vector. -/
noncomputable def LinearInclinationResonancOperator.advance_inclination_variables
    (op : LinearInclinationResonancOperator) (st : ResState) : ResState :=
  let theta := op.res_vec ⬝ᵥ st.l
  let s := Real.sin theta
  let c := Real.cos theta
  let R := op.T.transpose.mulVec st.rho
  let S := op.T.transpose.mulVec st.sigma
  let s2 := 2 * s * c
  let c2 := c * c - s * s
  let S1 : Fin 2 → ℝ := fun i =>
    op.cosh_lmbda_dt i * S i + op.sinh_lmbda_dt i * (s2 * S i + c2 * R i)
  let R1 : Fin 2 → ℝ := fun i =>
    op.cosh_lmbda_dt i * R i + op.sinh_lmbda_dt i * (c2 * S i - s2 * R i)
  let rho1 := op.T.mulVec R1
  let sigma1 := op.T.mulVec S1
  { st with sigma := sigma1, rho := rho1 }

/-- Embeds `LinearInclinationResonancOperator.apply` (lines 232-240):
identical in structure to the eccentricity operator's `apply` but with
conserved action `Q`. -/
noncomputable def LinearInclinationResonancOperator.apply
    (op : LinearInclinationResonancOperator) (st : ResState) : ResState :=
  let C1 := op.Lambdas_vec ⬝ᵥ st.Lambda
  let C2 := (st.Lambda 0 + st.Lambda 1) - (st.Qs 0 + st.Qs 1)
  let st1 := op.advance_inclination_variables st
  let Lambdas1 := op.Lambdas_Mtrx.mulVec ![C1, C2 + (st1.Qs 0 + st1.Qs 1)]
  { st1 with Lambda := Lambdas1 }

/-- Gathers the two-body resonance sub-state from the reshaped flat vector:
rows `iIn, iOut`, with columns read as
`(kappa, eta, Lambda, l, sigma, rho) = (0, 1, 2, 3, 4, 5)`. -/
def ResState.ofVecs {n : ℕ} (vecs : Fin n → Fin 6 → ℝ) (iIn iOut : Fin n) : ResState :=
  { Lambda := ![vecs iIn 2, vecs iOut 2]
    l := ![vecs iIn 3, vecs iOut 3]
    kappa := ![vecs iIn 0, vecs iOut 0]
    eta := ![vecs iIn 1, vecs iOut 1]
    sigma := ![vecs iIn 4, vecs iOut 4]
    rho := ![vecs iIn 5, vecs iOut 5] }

/-- Embeds `LinearEccentricityResonancOperator.apply_to_state_vector`
(lines 387-406) on the reshaped `(-1, 6)` view: rows `iIn, iOut` are read at
columns `(0, 1, 2, 3)` as `(kappa, eta, Lambda, lambda)`, the same map as
`apply` is computed, and columns `(0, 1, 2)` of those rows are overwritten
with the new `(kappa, eta, Lambda)`.  When the two row indices alias, the
later write (row index `iOut`) wins, as with numpy fancy-index assignment. -/
noncomputable def LinearEccentricityResonancOperator.apply_to_state_vector {n : ℕ}
    (op : LinearEccentricityResonancOperator) (iIn iOut : Fin n)
    (vecs : Fin n → Fin 6 → ℝ) : Fin n → Fin 6 → ℝ :=
  let Lambdas : Fin 2 → ℝ := ![vecs iIn 2, vecs iOut 2]
  let lambdas : Fin 2 → ℝ := ![vecs iIn 3, vecs iOut 3]
  let kappa : Fin 2 → ℝ := ![vecs iIn 0, vecs iOut 0]
  let eta : Fin 2 → ℝ := ![vecs iIn 1, vecs iOut 1]
  let Gammas0 : Fin 2 → ℝ := fun i => 0.5 * (kappa i ^ 2 + eta i ^ 2)
  let C1 := op.Lambdas_vec ⬝ᵥ Lambdas
  let C2 := (Lambdas 0 + Lambdas 1) - (Gammas0 0 + Gammas0 1)
  let theta := op.res_vec ⬝ᵥ lambdas
  let s := Real.sin theta
  let c := Real.cos theta
  let H := op.T.transpose.mulVec (fun i => eta i - 0.5 * _rt2 * op.Ainv_dot_b i * s)
  let K := op.T.transpose.mulVec (fun i => kappa i + 0.5 * _rt2 * op.Ainv_dot_b i * c)
  let s2 := 2 * s * c
  let c2 := c * c - s * s
  let K1 : Fin 2 → ℝ := fun i =>
    op.cosh_lmbda_dt i * K i + op.sinh_lmbda_dt i * (s2 * K i + c2 * H i)
  let H1 : Fin 2 → ℝ := fun i =>
    op.cosh_lmbda_dt i * H i + op.sinh_lmbda_dt i * (c2 * K i - s2 * H i)
  let eta1 : Fin 2 → ℝ := fun i => op.T.mulVec H1 i + 0.5 * _rt2 * op.Ainv_dot_b i * s
  let kappa1 : Fin 2 → ℝ := fun i => op.T.mulVec K1 i - 0.5 * _rt2 * op.Ainv_dot_b i * c
  let Gammas1 : Fin 2 → ℝ := fun i => 0.5 * (kappa1 i ^ 2 + eta1 i ^ 2)
  let Lambdas1 := op.Lambdas_Mtrx.mulVec ![C1, C2 + (Gammas1 0 + Gammas1 1)]
  fun r c' =>
    if r = iOut then
      if c' = 0 then kappa1 1 else if c' = 1 then eta1 1
      else if c' = 2 then Lambdas1 1 else vecs r c'
    else if r = iIn then
      if c' = 0 then kappa1 0 else if c' = 1 then eta1 0
      else if c' = 2 then Lambdas1 0 else vecs r c'
    else vecs r c'

/-- Embeds `LinearInclinationResonancOperator.apply_to_state_vector`
(lines 242-261) on the reshaped `(-1, 6)` view: rows `iIn, iOut` are read at
columns `(2, 3, 4, 5)` as `(Lambda, lambda, sigma, rho)`, and columns
`(4, 5, 2)` of those rows are overwritten with the new
`(sigma, rho, Lambda)`. -/
noncomputable def LinearInclinationResonancOperator.apply_to_state_vector {n : ℕ}
    (op : LinearInclinationResonancOperator) (iIn iOut : Fin n)
    (vecs : Fin n → Fin 6 → ℝ) : Fin n → Fin 6 → ℝ :=
  let Lambdas : Fin 2 → ℝ := ![vecs iIn 2, vecs iOut 2]
  let lambdas : Fin 2 → ℝ := ![vecs iIn 3, vecs iOut 3]
  let sigma : Fin 2 → ℝ := ![vecs iIn 4, vecs iOut 4]
  let rho : Fin 2 → ℝ := ![vecs iIn 5, vecs iOut 5]
  let Qs0 : Fin 2 → ℝ := fun i => 0.5 * (rho i ^ 2 + sigma i ^ 2)
  let C1 := op.Lambdas_vec ⬝ᵥ Lambdas
  let C2 := (Lambdas 0 + Lambdas 1) - (Qs0 0 + Qs0 1)
  let theta := op.res_vec ⬝ᵥ lambdas
  let s := Real.sin theta
  let c := Real.cos theta
  let R := op.T.transpose.mulVec rho
  let S := op.T.transpose.mulVec sigma
  let s2 := 2 * s * c
  let c2 := c * c - s * s
  let S1 : Fin 2 → ℝ := fun i =>
    op.cosh_lmbda_dt i * S i + op.sinh_lmbda_dt i * (s2 * S i + c2 * R i)
  let R1 : Fin 2 → ℝ := fun i =>
    op.cosh_lmbda_dt i * R i + op.sinh_lmbda_dt i * (c2 * S i - s2 * R i)
  let rho1 := op.T.mulVec R1
  let sigma1 := op.T.mulVec S1
  let Qs1 : Fin 2 → ℝ := fun i => 0.5 * (rho1 i ^ 2 + sigma1 i ^ 2)
  let Lambdas1 := op.Lambdas_Mtrx.mulVec ![C1, C2 + (Qs1 0 + Qs1 1)]
  fun r c' =>
    if r = iOut then
      if c' = 4 then sigma1 1 else if c' = 5 then rho1 1
      else if c' = 2 then Lambdas1 1 else vecs r c'
    else if r = iIn then
      if c' = 4 then sigma1 0 else if c' = 5 then rho1 0
      else if c' = 2 then Lambdas1 0 else vecs r c'
    else vecs r c'

/-- A monomial-term key as recorded in `PoincareHamiltonian.resonance_indices`
(`poincare.py` lines 588, 641): the tuple `(indexIn, indexOut, (kvec, nuvec))`. -/
structure ResonanceIndexKey where
  indexIn : ℕ
  indexOut : ℕ
  kvec : List ℤ
  nuvec : List ℤ
  deriving DecidableEq

/-- The mutable accumulator state of a `PoincareHamiltonian` that
`add_monomial_term` touches: the symbolic expression `H`, the parameter map
`Hparams` and the recorded key list `resonance_indices`.  The symbolic
expression type and the parameter-map type are abstract: the symbolic engine
is an external collaborator of the specification. -/
structure PoincareHamiltonianState (Expr Params : Type) where
  H : Expr
  Hparams : Params
  resonance_indices : List ResonanceIndexKey

/-- Embeds `PoincareHamiltonian.add_monomial_term` (`poincare.py` lines
580-645).  If the key is already recorded, warn and return with the state
untouched; otherwise build the new term, record the key and extend `H` and
`Hparams`.  The construction of the symbolic term and of its
disturbing-function coefficient entries (sympy and `disturbing_function.py`,
external collaborators) is abstracted by `addTerm` and `addParams`; the
guard never invokes them.  The returned flag is true exactly when the
duplicate-key warning was issued. -/
def add_monomial_term {Expr Params : Type} (addTerm : Expr → Expr)
    (addParams : Params → Params) (key : ResonanceIndexKey)
    (st : PoincareHamiltonianState Expr Params) :
    PoincareHamiltonianState Expr Params × Bool :=
  if key ∈ st.resonance_indices then (st, true)
  else
    ({ H := addTerm st.H, Hparams := addParams st.Hparams
       resonance_indices := st.resonance_indices ++ [key] }, false)

/-- Names bound at module level in `poincare.py`: its imports (lines 1-11)
and its top-level definitions.  No module-level variable named `t` exists. -/
def poincare_module_names : List String :=
  [ "np", "MutableMapping", "symbols", "S", "binomial", "summation", "sqrt"
  , "cos", "sin", "Function", "atan2", "expand_trig", "diff", "Matrix"
  , "series", "Hamiltonian", "PhaseSpaceState", "PoissonBracket"
  , "_p1_p2_from_k_nu", "eval_DFCoeff_delta_expansion", "DFCoeff_C"
  , "get_DFCoeff_symbol", "reb_add_poincare_particle", "reb_calculate_orbits"
  , "combinations", "rebound", "warnings", "get_re_im_components"
  , "num_passed", "_get_a0_symbol", "_get_Lambda0_symbol", "PoincareParticle"
  , "PoincareParticles", "Poincare", "PoincareHamiltonian" ]

/-- Local names bound in the body of `Poincare.copy` (line 514-515): only the
parameter `self`.  (Python's builtins contain no name `t` either.) -/
def copy_local_names : List String :=
  [ "self" ]

/-- Python name resolution for a bare name appearing in a method body:
the name must be bound locally or at module level, otherwise evaluating it
raises `NameError`. -/
def lookupName (localNames globalNames : List String) (x : String) : Except PyExc Unit :=
  if x ∈ localNames ∨ x ∈ globalNames then Except.ok () else Except.error PyExc.NameError

/-- The bare name `t` passed as the keyword argument `t=t` in the body of
`Poincare.copy` (`poincare.py` line 515). -/
def copy_t_argument_name : String :=
  "t"

/-- Embeds `Poincare.copy` (`poincare.py` lines 514-515): the call
`Poincare(G=self.G, coordinates=self.coordinates,
poincareparticles=self.particles[1:self.N], t=t)` evaluates the bare name
`t` while building its arguments; if that evaluation fails the call raises,
otherwise a fresh `Poincare` built from the same data would be returned.
The state itself is abstract (`α`): the result never depends on it. -/
def Poincare.copy {α : Type} (s : α) : Except PyExc α :=
  match lookupName copy_local_names poincare_module_names copy_t_argument_name with
  | Except.error err => Except.error err
  | Except.ok _ => Except.ok s

/-- Concrete eccentricity resonance operator used in concrete evaluations: a
second-order-type operator (`b = 0`, so `Ainv_dot_b = 0`) with
`res_vec = [-1, 2]` (the `j = 2` first-order resonance vector `[1-j, j]`),
diagonal interaction matrix (so `T` is the identity), and
`cosh(dt*eig) = 5/4`, `sinh(dt*eig) = 3/4` (a genuine cosh/sinh pair). -/
noncomputable def opE0 : LinearEccentricityResonancOperator :=
  { res_vec := ![-1, 2]
    T := 1
    cosh_lmbda_dt := ![5 / 4, 5 / 4]
    sinh_lmbda_dt := ![3 / 4, 3 / 4]
    Ainv_dot_b := ![0, 0] }

/-- Concrete inclination resonance operator for concrete evaluations. -/
noncomputable def opI0 : LinearInclinationResonancOperator :=
  { res_vec := ![-1, 2]
    T := 1
    cosh_lmbda_dt := ![5 / 4, 5 / 4]
    sinh_lmbda_dt := ![3 / 4, 3 / 4] }

/-- Concrete two-body resonance state: both `Lambda = 1`, both mean
longitudes 0 (so the resonance angle is 0), inner `kappa = sigma = 1`, all
other variables 0. -/
noncomputable def stE0 : ResState :=
  { Lambda := ![1, 1]
    l := ![0, 0]
    kappa := ![1, 0]
    eta := ![0, 0]
    sigma := ![1, 0]
    rho := ![0, 0] }

/-- Concrete particle with `mu = 4` and `skappa = 1` (all angles zero). -/
noncomputable def particleMu4 : PoincareParticle :=
  { mu := 4, M := 1, sLambda := 1, l := 0
    skappa := 1, seta := 0, ssigma := 0, srho := 0 }

/-- Concrete particle with `sGamma / sLambda = 9/2 > 2`, putting the
eccentricity read's square-root argument below zero. -/
noncomputable def particleGbyL9over2 : PoincareParticle :=
  { mu := 1, M := 1, sLambda := 1, l := 0
    skappa := 3, seta := 0, ssigma := 0, srho := 0 }

/-- First concrete particle (unit masses, distinct variable values). -/
noncomputable def particleA : PoincareParticle :=
  { mu := 1, M := 1, sLambda := 1, l := 10
    skappa := 20, seta := 30, ssigma := 40, srho := 50 }

/-- Second concrete particle (unit masses, distinct variable values). -/
noncomputable def particleB : PoincareParticle :=
  { mu := 1, M := 1, sLambda := 2, l := 11
    skappa := 21, seta := 31, ssigma := 41, srho := 51 }

/-- Concrete monomial-term key. -/
def resKey0 : ResonanceIndexKey :=
  { indexIn := 1, indexOut := 2, kvec := [3, -2, -1, 0, 0, 0], nuvec := [0, 0, 0, 0] }

/-- Concrete Hamiltonian accumulator state (over `ℕ` expressions and
parameter maps) that already records `resKey0`. -/
def phState0 : PoincareHamiltonianState ℕ ℕ :=
  { H := 7, Hparams := 11, resonance_indices := [resKey0] }

/-- Concrete linear secular operator on two bodies (zero coupling matrices,
unit timestep). -/
noncomputable def lsOp0 : LinearSecularEvolutionOperator 2 :=
  { ecc_matrix := 0, inc_matrix := 0, dt := 1 }

/-- Concrete reshaped flat state vector for two bodies. -/
noncomputable def vecs0 : Fin 2 → Fin 6 → ℝ :=
  fun i j => (i : ℝ) + (j : ℝ)

/-! ## Theorems -/

/-- C10: for every Poincare instance, `copy()` always raises `NameError`:
the keyword argument `t=t` in the body of `Poincare.copy` evaluates the bare
name `t`, which is bound neither locally nor at module level in
`poincare.py`, so no Poincare object can be duplicated through `copy`. -/
theorem poincare_copy_always_NameError {α : Type} (s : α) :
    Poincare.copy s = Except.error PyExc.NameError := rfl

/-- C7: calling `add_monomial_term` with a key already present in
`resonance_indices` issues the duplicate warning (flag true) and leaves the
whole accumulator state — `H`, `Hparams` and the recorded key list —
completely unchanged. -/
theorem add_monomial_term_duplicate_noop {Expr Params : Type}
    (addTerm : Expr → Expr) (addParams : Params → Params)
    (key : ResonanceIndexKey) (st : PoincareHamiltonianState Expr Params)
    (h : key ∈ st.resonance_indices) :
    add_monomial_term addTerm addParams key st = (st, true) := by
  simp [add_monomial_term, h]

/-- Witness for C7 at a concrete accumulator state. -/
theorem add_monomial_term_duplicate_noop_witness :
    resKey0 ∈ phState0.resonance_indices ∧
      add_monomial_term Nat.succ id resKey0 phState0 = (phState0, true) :=
  ⟨by decide, add_monomial_term_duplicate_noop Nat.succ id resKey0 phState0 (by decide)⟩

/-- C5 counterexample: at `(H, G, M, mu, Lambda) = (0, 1, 1, 1, 2)` the
source's Keplerian term is `-1/8` while the spec's claimed first-power form
gives `-1/4`; the two closed forms differ. -/
theorem add_Hkep_term_ne_specForm :
    add_Hkep_term 0 1 1 1 2 ≠ add_Hkep_term_specForm 0 1 1 1 2 := by
  norm_num [add_Hkep_term, add_Hkep_term_specForm]

/-- C5 (amended): the Keplerian term added for body `i` is the closed form
`-G² M_i² mu_i³ / (2 Λ_i²)` — inversely proportional to the SECOND power of
`Λ_i`, as the inverse-square scaling law makes explicit. -/
theorem add_Hkep_term_closed_form (H G M mu Lambda t : ℝ)
    (ht : t ≠ 0) (hL : Lambda ≠ 0) :
    add_Hkep_term H G M mu Lambda = H - G ^ 2 * M ^ 2 * mu ^ 3 / (2 * Lambda ^ 2) ∧
      add_Hkep_term H G M mu (t * Lambda) - H
        = (add_Hkep_term H G M mu Lambda - H) / t ^ 2 := by
  constructor
  · unfold add_Hkep_term; ring
  · unfold add_Hkep_term; field_simp; ring

/-- Witness for C5 at `(H, G, M, mu, Lambda, t) = (0, 1, 1, 1, 3, 2)`. -/
theorem add_Hkep_term_closed_form_witness :
    ((2 : ℝ) ≠ 0 ∧ (3 : ℝ) ≠ 0) ∧
      (add_Hkep_term 0 1 1 1 3 = 0 - 1 ^ 2 * 1 ^ 2 * 1 ^ 3 / (2 * 3 ^ 2) ∧
        add_Hkep_term 0 1 1 1 (2 * 3) - 0 = (add_Hkep_term 0 1 1 1 3 - 0) / 2 ^ 2) :=
  ⟨⟨by norm_num, by norm_num⟩,
    add_Hkep_term_closed_form 0 1 1 1 3 2 (by norm_num) (by norm_num)⟩

/-- C4: the Keplerian drift advances each body's mean longitude by exactly
`dt * G² M² m³ / Λ³` and changes nothing else; consequently applying it with
`dt` and then with `-dt` is the identity on the whole state. -/
theorem keplerian_drift_exact_and_reversible {n : ℕ} (G dt : ℝ)
    (m M : Fin n → ℝ) (ps : Fin n → PlanetState) :
    (∀ i, (KeplerianEvolutionOperator.apply G dt m M ps i).l
            = (ps i).l + dt * (G ^ 2 * M i ^ 2 * m i ^ 3 / (ps i).Lambda ^ 3) ∧
          (KeplerianEvolutionOperator.apply G dt m M ps i).Lambda = (ps i).Lambda ∧
          (KeplerianEvolutionOperator.apply G dt m M ps i).kappa = (ps i).kappa ∧
          (KeplerianEvolutionOperator.apply G dt m M ps i).eta = (ps i).eta ∧
          (KeplerianEvolutionOperator.apply G dt m M ps i).sigma = (ps i).sigma ∧
          (KeplerianEvolutionOperator.apply G dt m M ps i).rho = (ps i).rho) ∧
      KeplerianEvolutionOperator.apply G (-dt) m M
          (KeplerianEvolutionOperator.apply G dt m M ps) = ps := by
  constructor
  · intro i
    refine ⟨?_, rfl, rfl, rfl, rfl, rfl⟩
    simp only [KeplerianEvolutionOperator.apply]
    ring
  · funext i
    ext <;> (simp only [KeplerianEvolutionOperator.apply]; try ring)

/-- C8 counterexample: for the particle with `mu = 4`, `skappa = 1` (other
variables zero) the claimed identities with the extra factor of `mu` fail:
`kappa² + eta² = 4` but `2·mu·Γ = 16`. -/
theorem canonical_action_identity_mu_factor_fails :
    ¬ (particleMu4.kappa ^ 2 + particleMu4.eta ^ 2
          = 2 * particleMu4.mu * particleMu4.Gamma ∧
        particleMu4.sigma ^ 2 + particleMu4.rho ^ 2
          = 2 * particleMu4.mu * particleMu4.Q) := by
  have h4 : Real.sqrt (4 : ℝ) = 2 := by
    rw [show (4 : ℝ) = 2 ^ 2 by norm_num]
    exact Real.sqrt_sq (by norm_num)
  rintro ⟨h1, -⟩
  simp only [particleMu4, PoincareParticle.kappa, PoincareParticle.eta,
    PoincareParticle.Gamma, h4] at h1
  norm_num at h1

/-- C8 (amended): for every particle with nonnegative canonical mass,
`kappa² + eta² = 2·Γ` and `sigma² + rho² = 2·Q` hold exactly (equivalently,
`2·mu·sGamma` and `2·mu·sQ`: the spec's extra factor of `mu` belongs with
the specific actions, not the massive ones). -/
theorem canonical_action_identities (p : PoincareParticle) (h : 0 ≤ p.mu) :
    p.kappa ^ 2 + p.eta ^ 2 = 2 * p.Gamma ∧
      p.sigma ^ 2 + p.rho ^ 2 = 2 * p.Q := by
  have hmu : Real.sqrt p.mu ^ 2 = p.mu := Real.sq_sqrt h
  constructor
  · simp only [PoincareParticle.kappa, PoincareParticle.eta, PoincareParticle.Gamma,
      mul_pow, hmu]
    ring
  · simp only [PoincareParticle.sigma, PoincareParticle.rho, PoincareParticle.Q,
      mul_pow, hmu]
    ring

/-- Witness for C8 at the concrete particle with `mu = 4`. -/
theorem canonical_action_identities_witness :
    (0 : ℝ) ≤ particleMu4.mu ∧
      (particleMu4.kappa ^ 2 + particleMu4.eta ^ 2 = 2 * particleMu4.Gamma ∧
        particleMu4.sigma ^ 2 + particleMu4.rho ^ 2 = 2 * particleMu4.Q) :=
  ⟨by norm_num [particleMu4],
    canonical_action_identities particleMu4 (by norm_num [particleMu4])⟩

/-- C9 counterexample: constructing a particle with eccentricity input
`e = 1` (with `sLambda = 1` and the source's defaults for the remaining
elements) does NOT raise: construction succeeds and the derived eccentricity
reads back as `ok 1` — a value outside `[0, 1)` — because the square-root
argument `1 - (1 - GbyL)²` equals 1, not a negative number. -/
theorem mkFromElements_e_one_reads_ok_one :
    (PoincareParticle.mkFromElements 1 1 1 0 1 0 0 0).e = Except.ok 1 := by
  have h2 : Real.sqrt 2 ^ 2 = 2 := Real.sq_sqrt (by norm_num)
  simp only [PoincareParticle.mkFromElements, PoincareParticle.e,
    PoincareParticle.sGamma]
  norm_num [Real.cos_zero, Real.sin_zero, Real.sqrt_zero, Real.sqrt_one, h2]

/-- C9 (amended): constructing a particle with eccentricity input `e = 1`
succeeds and its derived eccentricity reads back as exactly 1 with no error
(the boundary `e = 1` is not guarded); the physical-state error is raised at
eccentricity-read time exactly when the square-root argument
`1 - (1 - GbyL)²` is negative (i.e. `GbyL < 0` or `GbyL > 2`), e.g. for
states with `sGamma > 2·sLambda`. -/
theorem e_one_unguarded_and_read_guard :
    (PoincareParticle.mkFromElements 1 1 1 0 1 0 0 0).e = Except.ok 1 ∧
      ∀ p : PoincareParticle,
        1 - (1 - p.sGamma / p.sLambda) * (1 - p.sGamma / p.sLambda) < 0 →
          p.e = Except.error PyExc.AttributeError := by
  constructor
  · have h2 : Real.sqrt 2 ^ 2 = 2 := Real.sq_sqrt (by norm_num)
    simp only [PoincareParticle.mkFromElements, PoincareParticle.e,
      PoincareParticle.sGamma]
    norm_num [Real.cos_zero, Real.sin_zero, Real.sqrt_zero, Real.sqrt_one, h2]
  · intro p h
    simp only [PoincareParticle.e]
    rw [if_pos h]

/-- Witness for C9 at the concrete particle with `sGamma / sLambda = 9/2`. -/
theorem e_one_unguarded_and_read_guard_witness :
    (1 - (1 - particleGbyL9over2.sGamma / particleGbyL9over2.sLambda)
        * (1 - particleGbyL9over2.sGamma / particleGbyL9over2.sLambda) < 0) ∧
      particleGbyL9over2.e = Except.error PyExc.AttributeError := by
  have h : 1 - (1 - particleGbyL9over2.sGamma / particleGbyL9over2.sLambda)
      * (1 - particleGbyL9over2.sGamma / particleGbyL9over2.sLambda) < 0 := by
    norm_num [particleGbyL9over2, PoincareParticle.sGamma]
  exact ⟨h, e_one_unguarded_and_read_guard.2 particleGbyL9over2 h⟩

/-- Powers of the imaginary unit, split by parity as in the source's
quadrant signs: `I^l = (-1)^(l//2)` for even `l` and `I * (-1)^((l-1)//2)`
for odd `l`. -/
theorem I_pow_mod (l : ℕ) :
    Complex.I ^ l
      = if l % 2 = 0 then ((-1 : ℂ)) ^ (l / 2) else Complex.I * (-1) ^ ((l - 1) / 2) := by
  rcases Nat.even_or_odd l with ⟨m, hm⟩ | ⟨m, hm⟩
  · subst hm
    rw [if_pos (by omega), show m + m = 2 * m by ring, pow_mul, Complex.I_sq,
      show 2 * m / 2 = m by omega]
  · subst hm
    rw [if_neg (by omega), pow_succ, pow_mul, Complex.I_sq,
      show (2 * m + 1 - 1) / 2 = m by omega]
    ring

/-- The binomial-split identity for `get_re_im_components`, over `ℂ`. -/
theorem get_re_im_components_complex (x y : ℂ) (k : ℤ) :
    (get_re_im_components x y k).1 + Complex.I * (get_re_im_components x y k).2
      = (x + ((Int.sign k : ℤ) : ℂ) * Complex.I * y) ^ k.natAbs := by
  by_cases hk : k = 0
  · subst hk; simp [get_re_im_components]
  · simp only [get_re_im_components, if_neg hk]
    rw [add_comm x, add_pow, Finset.mul_sum, ← Finset.sum_add_distrib]
    refine Finset.sum_congr rfl fun l hl => ?_
    rcases Nat.mod_two_eq_zero_or_one l with h | h
    · rw [if_pos h, if_neg (show ¬ l % 2 = 1 by omega), mul_zero, add_zero]
      simp only [mul_pow]
      rw [I_pow_mod l, if_pos h]
      ring
    · rw [if_neg (show ¬ l % 2 = 0 by omega), if_pos h, zero_add]
      simp only [mul_pow]
      rw [I_pow_mod l, if_neg (show ¬ l % 2 = 0 by omega)]
      ring

/-- Real-to-complex cast commutes with `get_re_im_components`. -/
theorem get_re_im_components_cast (x y : ℝ) (k : ℤ) :
    ((get_re_im_components x y k).1 : ℂ) = (get_re_im_components (x : ℂ) (y : ℂ) k).1 ∧
      ((get_re_im_components x y k).2 : ℂ) = (get_re_im_components (x : ℂ) (y : ℂ) k).2 := by
  by_cases hk : k = 0
  · subst hk; simp [get_re_im_components]
  · simp only [get_re_im_components, if_neg hk]
    constructor <;> push_cast [apply_ite (Complex.ofReal)] <;> rfl

/-- C6: for all real inputs `x, y` and every integer `k`, the pair
`(re, im)` returned by `get_re_im_components x y k` satisfies
`re + i*im = (x + sign(k)*i*y)^|k|`, and `k = 0` returns `(1, 0)`. -/
theorem get_re_im_components_correct (x y : ℝ) (k : ℤ) :
    ((get_re_im_components x y k).1 : ℂ)
        + Complex.I * ((get_re_im_components x y k).2 : ℂ)
      = ((x : ℂ) + (Int.sign k : ℂ) * Complex.I * (y : ℂ)) ^ k.natAbs ∧
      get_re_im_components x y (0 : ℤ) = (1, 0) := by
  refine ⟨?_, by simp [get_re_im_components]⟩
  rw [(get_re_im_components_cast x y k).1, (get_re_im_components_cast x y k).2]
  exact get_re_im_components_complex (x : ℂ) (y : ℂ) k

/-- Decomposing a complex number into `_rt2`-scaled real components and
regathering it through `_rt2_inv` is the identity; this is why one `apply`
hands the next `apply` exactly the complex vector it produced. -/
theorem set_read_recompose (z : ℂ) :
    (((_rt2 * z.re : ℝ) : ℂ) - Complex.I * ((_rt2 * (Complex.I * z).re : ℝ) : ℂ))
        * ((_rt2_inv : ℝ) : ℂ) = z := by
  have h2 : (_rt2 : ℝ) ≠ 0 := by
    simp only [_rt2]; positivity
  simp only [_rt2_inv]
  push_cast
  rw [Complex.mul_re]
  simp only [Complex.I_re, Complex.I_im]
  apply Complex.ext <;> field_simp

/-- Reading the `x` vector back from `set_xy` returns the stored vector. -/
theorem set_xy_x_vector {n : ℕ} (x y : Fin n → ℂ) :
    (SecularState.set_xy x y).x_vector = x :=
  funext fun i => set_read_recompose (x i)

/-- Reading the `y` vector back from `set_xy` returns the stored vector. -/
theorem set_xy_y_vector {n : ℕ} (x y : Fin n → ℂ) :
    (SecularState.set_xy x y).y_vector = y :=
  funext fun i => set_read_recompose (y i)

/-- The cached propagators compose: `expm(-i dt1 M) expm(-i dt2 M) =
expm(-i (dt1+dt2) M)`, since scalar multiples of one matrix commute. -/
theorem operator_matrix_compose {n : ℕ} (M : Matrix (Fin n) (Fin n) ℂ) (dt1 dt2 : ℝ) :
    exp ℂ ((-Complex.I * (dt1 : ℂ)) • M) * exp ℂ ((-Complex.I * (dt2 : ℂ)) • M)
      = exp ℂ ((-Complex.I * ((dt1 + dt2 : ℝ) : ℂ)) • M) := by
  rw [← Matrix.exp_add_of_commute ℂ _ _ (((Commute.refl M).smul_left _).smul_right _),
    ← add_smul]
  congr 1
  push_cast
  ring_nf

/-- C3: for every linear secular operator (fixed coupling matrices) and all
real timesteps `dt1`, `dt2`, applying with `dt2` and then with `dt1`
produces exactly the same state as one application with `dt1 + dt2`: the
operator is the exact flow of the linear ODE system. -/
theorem linear_secular_apply_compose {n : ℕ} (Me Mi : Matrix (Fin n) (Fin n) ℂ)
    (dt1 dt2 : ℝ) (s : SecularState n) :
    LinearSecularEvolutionOperator.apply ⟨Me, Mi, dt1⟩
        (LinearSecularEvolutionOperator.apply ⟨Me, Mi, dt2⟩ s)
      = LinearSecularEvolutionOperator.apply ⟨Me, Mi, dt1 + dt2⟩ s := by
  simp only [LinearSecularEvolutionOperator.apply,
    LinearSecularEvolutionOperator.ecc_operator_matrix,
    LinearSecularEvolutionOperator.inc_operator_matrix,
    set_xy_x_vector, set_xy_y_vector, Matrix.mulVec_mulVec,
    operator_matrix_compose]

/-- A 2x2 linear system solved through the matrix inverse really is solved:
multiplying back recovers the right-hand side when the determinant is a
unit. -/
theorem mulVec_inv_cancel (A : Matrix (Fin 2) (Fin 2) ℝ) (hA : IsUnit A.det)
    (w : Fin 2 → ℝ) : A.mulVec (A⁻¹.mulVec w) = w := by
  rw [Matrix.mulVec_mulVec, Matrix.mul_nonsing_inv A hA, Matrix.one_mulVec]

/-- The reconstruction step of the resonance operators: with
`A = [[-v1, v0], [1, 1]]` (rows `Lambdas_vec` and `[1, 1]`), the vector
`A⁻¹ w` has `Lambdas_vec`-dot equal to `w 0` and component sum equal to
`w 1`, provided `v0 + v1`, the negated determinant, is nonzero. -/
theorem Lambdas_Mtrx_solves (v : Fin 2 → ℝ) (h : v 0 + v 1 ≠ 0) (w : Fin 2 → ℝ) :
    let A := Matrix.of ![![-1 * v 1, v 0], ![1, 1]]
    ![-1 * v 1, v 0] ⬝ᵥ (A⁻¹.mulVec w) = w 0 ∧
      (A⁻¹.mulVec w) 0 + (A⁻¹.mulVec w) 1 = w 1 := by
  intro A
  have hdet : A.det ≠ 0 := by
    rw [Matrix.det_fin_two]
    show (-1 * v 1) * 1 - v 0 * 1 ≠ 0
    intro hc
    apply h
    linarith
  have hc := mulVec_inv_cancel A (isUnit_iff_ne_zero.mpr hdet) w
  constructor
  · have h0 := congrFun hc 0
    rw [show A.mulVec (A⁻¹.mulVec w) 0 = ![-1 * v 1, v 0] ⬝ᵥ (A⁻¹.mulVec w) from rfl] at h0
    exact h0
  · have h1 := congrFun hc 1
    rw [show A.mulVec (A⁻¹.mulVec w) 1 = ![(1 : ℝ), 1] ⬝ᵥ (A⁻¹.mulVec w) from rfl] at h1
    rw [show ![(1 : ℝ), 1] ⬝ᵥ (A⁻¹.mulVec w)
        = (A⁻¹.mulVec w) 0 + (A⁻¹.mulVec w) 1 by
      simp [Matrix.dotProduct, Fin.sum_univ_two]] at h1
    exact h1

/-- One eccentricity-resonance `apply` preserves `Lambdas_vec . Lambda` and
`sum(Lambda) - sum(Gamma)`, whatever the hyperbolic advance does. -/
theorem ecc_apply_invariants (op : LinearEccentricityResonancOperator) (st : ResState)
    (h : op.res_vec 0 + op.res_vec 1 ≠ 0) :
    op.Lambdas_vec ⬝ᵥ (op.apply st).Lambda = op.Lambdas_vec ⬝ᵥ st.Lambda ∧
      ((op.apply st).Lambda 0 + (op.apply st).Lambda 1)
          - ((op.apply st).Gammas 0 + (op.apply st).Gammas 1)
        = (st.Lambda 0 + st.Lambda 1) - (st.Gammas 0 + st.Gammas 1) := by
  have key := Lambdas_Mtrx_solves op.res_vec h
    ![op.Lambdas_vec ⬝ᵥ st.Lambda,
      ((st.Lambda 0 + st.Lambda 1) - (st.Gammas 0 + st.Gammas 1))
        + ((op.advance_eccentricity_variables st).Gammas 0
            + (op.advance_eccentricity_variables st).Gammas 1)]
  simp only [Matrix.cons_val_zero, Matrix.cons_val_one, Matrix.head_cons] at key
  have hL : (op.apply st).Lambda
      = (Matrix.of ![![-1 * op.res_vec 1, op.res_vec 0], ![1, 1]])⁻¹.mulVec
          ![op.Lambdas_vec ⬝ᵥ st.Lambda,
            ((st.Lambda 0 + st.Lambda 1) - (st.Gammas 0 + st.Gammas 1))
              + ((op.advance_eccentricity_variables st).Gammas 0
                  + (op.advance_eccentricity_variables st).Gammas 1)] := rfl
  have hG : (op.apply st).Gammas = (op.advance_eccentricity_variables st).Gammas := rfl
  have hLv : op.Lambdas_vec = ![-1 * op.res_vec 1, op.res_vec 0] := rfl
  rw [hLv] at key
  rw [hL, hG, hLv]
  exact ⟨key.1, by rw [key.2]; ring⟩

/-- One inclination-resonance `apply` preserves `Lambdas_vec . Lambda` and
`sum(Lambda) - sum(Q)`, whatever the hyperbolic advance does. -/
theorem inc_apply_invariants (op : LinearInclinationResonancOperator) (st : ResState)
    (h : op.res_vec 0 + op.res_vec 1 ≠ 0) :
    op.Lambdas_vec ⬝ᵥ (op.apply st).Lambda = op.Lambdas_vec ⬝ᵥ st.Lambda ∧
      ((op.apply st).Lambda 0 + (op.apply st).Lambda 1)
          - ((op.apply st).Qs 0 + (op.apply st).Qs 1)
        = (st.Lambda 0 + st.Lambda 1) - (st.Qs 0 + st.Qs 1) := by
  have key := Lambdas_Mtrx_solves op.res_vec h
    ![op.Lambdas_vec ⬝ᵥ st.Lambda,
      ((st.Lambda 0 + st.Lambda 1) - (st.Qs 0 + st.Qs 1))
        + ((op.advance_inclination_variables st).Qs 0
            + (op.advance_inclination_variables st).Qs 1)]
  simp only [Matrix.cons_val_zero, Matrix.cons_val_one, Matrix.head_cons] at key
  have hL : (op.apply st).Lambda
      = (Matrix.of ![![-1 * op.res_vec 1, op.res_vec 0], ![1, 1]])⁻¹.mulVec
          ![op.Lambdas_vec ⬝ᵥ st.Lambda,
            ((st.Lambda 0 + st.Lambda 1) - (st.Qs 0 + st.Qs 1))
              + ((op.advance_inclination_variables st).Qs 0
                  + (op.advance_inclination_variables st).Qs 1)] := rfl
  have hQ : (op.apply st).Qs = (op.advance_inclination_variables st).Qs := rfl
  have hLv : op.Lambdas_vec = ![-1 * op.res_vec 1, op.res_vec 0] := rfl
  rw [hLv] at key
  rw [hL, hQ, hLv]
  exact ⟨key.1, by rw [key.2]; ring⟩

/-- C1 counterexample: `res_vec . Lambda` itself is NOT an invariant of
`apply`.  For the concrete operator `opE0` (`res_vec = [-1, 2]`, identity
eigenframe, `cosh = 5/4`, `sinh = 3/4`, no forcing) and the concrete state
`stE0`, one `apply` changes `res_vec . Lambda` from `1` to `61/16`: the
conserved combination is `(-res_vec[1], res_vec[0]) . Lambda`, not
`res_vec . Lambda`. -/
theorem res_vec_dot_Lambda_not_conserved :
    opE0.res_vec ⬝ᵥ (opE0.apply stE0).Lambda ≠ opE0.res_vec ⬝ᵥ stE0.Lambda := by
  simp only [opE0, stE0, LinearEccentricityResonancOperator.apply,
    LinearEccentricityResonancOperator.advance_eccentricity_variables,
    LinearEccentricityResonancOperator.Lambdas_Mtrx,
    LinearEccentricityResonancOperator.Lambdas_vec, ResState.Gammas]
  norm_num [Matrix.dotProduct, Fin.sum_univ_two, Matrix.mulVec, Matrix.inv_def,
    Matrix.adjugate_fin_two_of, Matrix.det_fin_two_of, Ring.inverse_eq_inv,
    Matrix.transpose_one, Matrix.one_mulVec, Real.sin_zero, Real.cos_zero,
    Matrix.cons_val_zero, Matrix.cons_val_one, Matrix.head_cons]

/-- C1 (amended): for both linear resonance operators (and hence their
first- and second-order subclasses), whenever the components of `res_vec` do
not sum to zero (always true for the `[1-j, j]` and `[2-j, j]/2` resonance
vectors, whose components sum to 1), one `apply` leaves both linear
invariants unchanged: `(-res_vec[1], res_vec[0]) . (LambdaIn, LambdaOut)`
(the `Lambdas_vec` combination the source conserves) and
`(LambdaIn + LambdaOut) - sum(conserved action)` (`Gamma` for the
eccentricity operator, `Q` for the inclination operator). -/
theorem resonance_apply_two_invariants
    (opE : LinearEccentricityResonancOperator) (stE : ResState)
    (opI : LinearInclinationResonancOperator) (stI : ResState)
    (hE : opE.res_vec 0 + opE.res_vec 1 ≠ 0)
    (hI : opI.res_vec 0 + opI.res_vec 1 ≠ 0) :
    (opE.Lambdas_vec ⬝ᵥ (opE.apply stE).Lambda = opE.Lambdas_vec ⬝ᵥ stE.Lambda ∧
      ((opE.apply stE).Lambda 0 + (opE.apply stE).Lambda 1)
          - ((opE.apply stE).Gammas 0 + (opE.apply stE).Gammas 1)
        = (stE.Lambda 0 + stE.Lambda 1) - (stE.Gammas 0 + stE.Gammas 1)) ∧
    (opI.Lambdas_vec ⬝ᵥ (opI.apply stI).Lambda = opI.Lambdas_vec ⬝ᵥ stI.Lambda ∧
      ((opI.apply stI).Lambda 0 + (opI.apply stI).Lambda 1)
          - ((opI.apply stI).Qs 0 + (opI.apply stI).Qs 1)
        = (stI.Lambda 0 + stI.Lambda 1) - (stI.Qs 0 + stI.Qs 1)) :=
  ⟨ecc_apply_invariants opE stE hE, inc_apply_invariants opI stI hI⟩

/-- Witness for C1 at the concrete operators `opE0`, `opI0` and state
`stE0`. -/
theorem resonance_apply_two_invariants_witness :
    (opE0.res_vec 0 + opE0.res_vec 1 ≠ 0) ∧
    (opI0.res_vec 0 + opI0.res_vec 1 ≠ 0) ∧
    ((opE0.Lambdas_vec ⬝ᵥ (opE0.apply stE0).Lambda = opE0.Lambdas_vec ⬝ᵥ stE0.Lambda ∧
      ((opE0.apply stE0).Lambda 0 + (opE0.apply stE0).Lambda 1)
          - ((opE0.apply stE0).Gammas 0 + (opE0.apply stE0).Gammas 1)
        = (stE0.Lambda 0 + stE0.Lambda 1) - (stE0.Gammas 0 + stE0.Gammas 1)) ∧
    (opI0.Lambdas_vec ⬝ᵥ (opI0.apply stE0).Lambda = opI0.Lambdas_vec ⬝ᵥ stE0.Lambda ∧
      ((opI0.apply stE0).Lambda 0 + (opI0.apply stE0).Lambda 1)
          - ((opI0.apply stE0).Qs 0 + (opI0.apply stE0).Qs 1)
        = (stE0.Lambda 0 + stE0.Lambda 1) - (stE0.Qs 0 + stE0.Qs 1))) := by
  have hE : opE0.res_vec 0 + opE0.res_vec 1 ≠ 0 := by
    norm_num [opE0, Matrix.cons_val_zero, Matrix.cons_val_one, Matrix.head_cons]
  have hI : opI0.res_vec 0 + opI0.res_vec 1 ≠ 0 := by
    norm_num [opI0, Matrix.cons_val_zero, Matrix.cons_val_one, Matrix.head_cons]
  exact ⟨hE, hI, resonance_apply_two_invariants opE0 stE0 opI0 stE0 hE hI⟩

/-- Length of a per-particle three-value flat map. -/
theorem flatMap3_length (f g h : PoincareParticle → ℝ) (ps : List PoincareParticle) :
    (ps.flatMap fun p => [f p, g p, h p]).length = 3 * ps.length := by
  induction ps with
  | nil => simp
  | cons p ps ih => simp [ih]; ring

/-- Reading back slots `3j, 3j+1, 3j+2` of a per-particle three-value flat
map returns particle `j`'s three values. -/
theorem flatMap3_getD (f g h : PoincareParticle → ℝ) (ps : List PoincareParticle)
    (j : ℕ) (hj : j < ps.length) :
    (ps.flatMap fun p => [f p, g p, h p]).getD (j * 3) 0 = f (ps.get ⟨j, hj⟩) ∧
      (ps.flatMap fun p => [f p, g p, h p]).getD (j * 3 + 1) 0 = g (ps.get ⟨j, hj⟩) ∧
      (ps.flatMap fun p => [f p, g p, h p]).getD (j * 3 + 2) 0 = h (ps.get ⟨j, hj⟩) := by
  induction ps generalizing j with
  | nil => exact absurd hj (by simp)
  | cons p ps ih =>
    cases j with
    | zero => simp [List.getD]
    | succ j =>
      have hj' : j < ps.length := by simpa using hj
      have := ih j hj'
      simpa [List.flatMap_cons, show (j + 1) * 3 = j * 3 + 1 + 1 + 1 by ring,
        List.getD_cons_succ] using this

/-- Round trip through the flat vector layout: `__getitem__` at (0-based)
index `j` of the vector built by `Poincare.__init__` returns exactly
particle `j`'s massive variables, read from the per-particle `(l, eta, rho)`
triple of the q-block and the `(Lambda, kappa, sigma)` triple of the
p-block. -/
theorem getitem_initial_values (ps : List PoincareParticle) (j : ℕ) (hj : j < ps.length) :
    PoincareParticles.getitem (Poincare.initial_values ps) (3 * ps.length) j
      = { kappa := (ps.get ⟨j, hj⟩).kappa
          eta := (ps.get ⟨j, hj⟩).eta
          Lambda := (ps.get ⟨j, hj⟩).Lambda
          l := (ps.get ⟨j, hj⟩).l
          sigma := (ps.get ⟨j, hj⟩).sigma
          rho := (ps.get ⟨j, hj⟩).rho } := by
  have hqlen := flatMap3_length PoincareParticle.l PoincareParticle.eta PoincareParticle.rho ps
  have hq := flatMap3_getD PoincareParticle.l PoincareParticle.eta PoincareParticle.rho ps j hj
  have hp := flatMap3_getD PoincareParticle.Lambda PoincareParticle.kappa
    PoincareParticle.sigma ps j hj
  have hb : ∀ r : ℕ, r < 3 →
      (Poincare.initial_values ps).getD (j * 3 + r) 0
        = (ps.flatMap fun p => [p.l, p.eta, p.rho]).getD (j * 3 + r) 0 := by
    intro r hr
    unfold Poincare.initial_values
    exact List.getD_append _ _ _ _ (by rw [hqlen]; omega)
  have hb' : ∀ r : ℕ,
      (Poincare.initial_values ps).getD (3 * ps.length + (j * 3 + r)) 0
        = (ps.flatMap fun p => [p.Lambda, p.kappa, p.sigma]).getD (j * 3 + r) 0 := by
    intro r
    unfold Poincare.initial_values
    rw [List.getD_append_right _ _ _ _ (by rw [hqlen]; omega), hqlen,
      show 3 * ps.length + (j * 3 + r) - 3 * ps.length = j * 3 + r by omega]
  unfold PoincareParticles.getitem
  have e_l : (Poincare.initial_values ps).getD (j * 3) 0 = (ps.get ⟨j, hj⟩).l :=
    (hb 0 (by omega)).trans hq.1
  have e_eta : (Poincare.initial_values ps).getD (j * 3 + 1) 0 = (ps.get ⟨j, hj⟩).eta :=
    (hb 1 (by omega)).trans hq.2.1
  have e_rho : (Poincare.initial_values ps).getD (j * 3 + 2) 0 = (ps.get ⟨j, hj⟩).rho :=
    (hb 2 (by omega)).trans hq.2.2
  have e_Lambda : (Poincare.initial_values ps).getD (3 * ps.length + j * 3) 0
      = (ps.get ⟨j, hj⟩).Lambda := (hb' 0).trans hp.1
  have e_kappa : (Poincare.initial_values ps).getD (3 * ps.length + j * 3 + 1) 0
      = (ps.get ⟨j, hj⟩).kappa := by
    rw [show 3 * ps.length + j * 3 + 1 = 3 * ps.length + (j * 3 + 1) from by omega]
    exact (hb' 1).trans hp.2.1
  have e_sigma : (Poincare.initial_values ps).getD (3 * ps.length + j * 3 + 2) 0
      = (ps.get ⟨j, hj⟩).sigma := by
    rw [show 3 * ps.length + j * 3 + 2 = 3 * ps.length + (j * 3 + 2) from by omega]
    exact (hb' 2).trans hp.2.2
  rw [e_l, e_eta, e_rho, e_Lambda, e_kappa, e_sigma]

/-- C2 counterexample: for the two concrete particles `particleA`,
`particleB` the flat vector built by `Poincare.__init__` (per-particle
triples `[l1, eta1, rho1, l2, eta2, rho2, Lambda1, kappa1, sigma1, Lambda2,
kappa2, sigma2]`) differs from the spec's claimed blockwise-by-variable
ordering already at index 1 (`eta1 = 30` versus `l2 = 11`). -/
theorem initial_values_not_blockwise :
    Poincare.initial_values [particleA, particleB]
      ≠ Poincare.initial_values_specForm [particleA, particleB] := by
  intro hc
  simp only [Poincare.initial_values, Poincare.initial_values_specForm,
    particleA, particleB, PoincareParticle.eta, PoincareParticle.rho,
    PoincareParticle.Lambda, PoincareParticle.kappa, PoincareParticle.sigma,
    List.flatMap_cons, List.flatMap_nil, List.map_cons, List.map_nil,
    List.append_nil, List.cons_append, List.nil_append, Real.sqrt_one, one_mul] at hc
  norm_num at hc

/-- The Keplerian flat-vector operator is the per-body Keplerian drift read
through the fixed slot order `(kappa, eta, Lambda, l, sigma, rho)`. -/
theorem kepler_flat_layout {n : ℕ} (G dt : ℝ) (m M : Fin n → ℝ)
    (vecs : Fin n → Fin 6 → ℝ) :
    perBody (KeplerianEvolutionOperator.apply_to_state_vector G dt m M vecs)
      = KeplerianEvolutionOperator.apply G dt m M (perBody vecs) := by
  funext i
  unfold perBody rowToPlanetState KeplerianEvolutionOperator.apply_to_state_vector
    KeplerianEvolutionOperator.apply
  ext <;> simp

/-- The linear secular flat-vector operator is the per-body secular rotation
read through columns `(0, 1) = (kappa, eta)` and `(4, 5) = (sigma, rho)`;
columns 2 (`Lambda`) and 3 (`l`) are untouched. -/
theorem linsec_flat_layout {n : ℕ} (op : LinearSecularEvolutionOperator n)
    (vecs : Fin n → Fin 6 → ℝ) :
    SecularState.ofVecs (op.apply_to_state_vector vecs)
        = op.apply (SecularState.ofVecs vecs) ∧
      ∀ i, op.apply_to_state_vector vecs i 2 = vecs i 2 ∧
        op.apply_to_state_vector vecs i 3 = vecs i 3 := by
  constructor
  · unfold SecularState.ofVecs LinearSecularEvolutionOperator.apply
      LinearSecularEvolutionOperator.apply_to_state_vector SecularState.set_xy
      SecularState.x_vector SecularState.y_vector
    ext i <;> simp [Complex.mul_re, Complex.I_re, Complex.I_im]
  · intro i
    unfold LinearSecularEvolutionOperator.apply_to_state_vector
    constructor <;> simp




/-- The eccentricity-resonance flat-vector operator agrees with `apply` on
the two-body sub-state gathered from rows `iIn, iOut` in the fixed slot
order; all other rows, and columns 3, 4, 5 of every row, are untouched. -/
theorem ecc_flat_layout {n : ℕ} (op : LinearEccentricityResonancOperator)
    (iIn iOut : Fin n) (hne : iIn ≠ iOut) (vecs : Fin n → Fin 6 → ℝ) :
    ResState.ofVecs (op.apply_to_state_vector iIn iOut vecs) iIn iOut
        = op.apply (ResState.ofVecs vecs iIn iOut) ∧
      (∀ r, r ≠ iIn → r ≠ iOut → ∀ c,
          op.apply_to_state_vector iIn iOut vecs r c = vecs r c) ∧
      (∀ r, op.apply_to_state_vector iIn iOut vecs r 3 = vecs r 3 ∧
        op.apply_to_state_vector iIn iOut vecs r 4 = vecs r 4 ∧
        op.apply_to_state_vector iIn iOut vecs r 5 = vecs r 5) := by
  set st0 := ResState.ofVecs vecs iIn iOut with hst0
  set st1 := op.advance_eccentricity_variables st0 with hst1
  have hflat : op.apply_to_state_vector iIn iOut vecs = fun r c' =>
      if r = iOut then
        if c' = 0 then st1.kappa 1
        else if c' = 1 then st1.eta 1
        else if c' = 2 then
          (op.Lambdas_Mtrx.mulVec
            ![op.Lambdas_vec ⬝ᵥ st0.Lambda,
              ((st0.Lambda 0 + st0.Lambda 1)
                - (0.5 * (st0.kappa 0 ^ 2 + st0.eta 0 ^ 2)
                  + 0.5 * (st0.kappa 1 ^ 2 + st0.eta 1 ^ 2)))
                + (0.5 * (st1.kappa 0 ^ 2 + st1.eta 0 ^ 2)
                  + 0.5 * (st1.kappa 1 ^ 2 + st1.eta 1 ^ 2))]) 1
        else vecs r c'
      else if r = iIn then
        if c' = 0 then st1.kappa 0
        else if c' = 1 then st1.eta 0
        else if c' = 2 then
          (op.Lambdas_Mtrx.mulVec
            ![op.Lambdas_vec ⬝ᵥ st0.Lambda,
              ((st0.Lambda 0 + st0.Lambda 1)
                - (0.5 * (st0.kappa 0 ^ 2 + st0.eta 0 ^ 2)
                  + 0.5 * (st0.kappa 1 ^ 2 + st0.eta 1 ^ 2)))
                + (0.5 * (st1.kappa 0 ^ 2 + st1.eta 0 ^ 2)
                  + 0.5 * (st1.kappa 1 ^ 2 + st1.eta 1 ^ 2))]) 0
        else vecs r c'
      else vecs r c' := rfl
  have hw : (![op.Lambdas_vec ⬝ᵥ st0.Lambda,
        ((st0.Lambda 0 + st0.Lambda 1)
          - (0.5 * (st0.kappa 0 ^ 2 + st0.eta 0 ^ 2)
            + 0.5 * (st0.kappa 1 ^ 2 + st0.eta 1 ^ 2)))
          + (0.5 * (st1.kappa 0 ^ 2 + st1.eta 0 ^ 2)
            + 0.5 * (st1.kappa 1 ^ 2 + st1.eta 1 ^ 2))] : Fin 2 → ℝ)
      = ![op.Lambdas_vec ⬝ᵥ st0.Lambda,
          ((st0.Lambda 0 + st0.Lambda 1) - (st0.Gammas 0 + st0.Gammas 1))
            + (st1.Gammas 0 + st1.Gammas 1)] := by
    funext i
    fin_cases i
    · rfl
    · show ((st0.Lambda 0 + st0.Lambda 1)
          - (0.5 * (st0.kappa 0 ^ 2 + st0.eta 0 ^ 2)
            + 0.5 * (st0.kappa 1 ^ 2 + st0.eta 1 ^ 2)))
          + (0.5 * (st1.kappa 0 ^ 2 + st1.eta 0 ^ 2)
            + 0.5 * (st1.kappa 1 ^ 2 + st1.eta 1 ^ 2))
        = ((st0.Lambda 0 + st0.Lambda 1) - (st0.Gammas 0 + st0.Gammas 1))
            + (st1.Gammas 0 + st1.Gammas 1)
      simp only [ResState.Gammas]
      ring
  have happly : op.apply st0 =
      { Lambda := op.Lambdas_Mtrx.mulVec
          ![op.Lambdas_vec ⬝ᵥ st0.Lambda,
            ((st0.Lambda 0 + st0.Lambda 1) - (st0.Gammas 0 + st0.Gammas 1))
              + (st1.Gammas 0 + st1.Gammas 1)]
        l := st0.l, kappa := st1.kappa, eta := st1.eta
        sigma := st0.sigma, rho := st0.rho } := rfl
  refine ⟨?_, ?_, ?_⟩
  · rw [hflat, happly]
    refine ResState.ext ?_ ?_ ?_ ?_ ?_ ?_ <;> funext i <;> fin_cases i <;>
      simp only [ResState.ofVecs, Matrix.cons_val_zero, Matrix.cons_val_one,
        Matrix.head_cons, if_neg hne, if_pos rfl, eq_self_iff_true, if_true,
        hw] <;>
      simp [Ne.symm hne, hne, hst0, ResState.ofVecs]
  · intro r hrIn hrOut c
    rw [hflat]
    simp [hrIn, hrOut]
  · intro r
    rw [hflat]
    refine ⟨?_, ?_, ?_⟩ <;> by_cases hr : r = iOut <;> by_cases hr' : r = iIn <;>
      simp [hr, hr']

/-- The inclination-resonance flat-vector operator agrees with `apply` on
the two-body sub-state gathered from rows `iIn, iOut` in the fixed slot
order; all other rows, and columns 0, 1, 3 of every row, are untouched. -/
theorem inc_flat_layout {n : ℕ} (op : LinearInclinationResonancOperator)
    (iIn iOut : Fin n) (hne : iIn ≠ iOut) (vecs : Fin n → Fin 6 → ℝ) :
    ResState.ofVecs (op.apply_to_state_vector iIn iOut vecs) iIn iOut
        = op.apply (ResState.ofVecs vecs iIn iOut) ∧
      (∀ r, r ≠ iIn → r ≠ iOut → ∀ c,
          op.apply_to_state_vector iIn iOut vecs r c = vecs r c) ∧
      (∀ r, op.apply_to_state_vector iIn iOut vecs r 0 = vecs r 0 ∧
        op.apply_to_state_vector iIn iOut vecs r 1 = vecs r 1 ∧
        op.apply_to_state_vector iIn iOut vecs r 3 = vecs r 3) := by
  set st0 := ResState.ofVecs vecs iIn iOut with hst0
  set st1 := op.advance_inclination_variables st0 with hst1
  have hflat : op.apply_to_state_vector iIn iOut vecs = fun r c' =>
      if r = iOut then
        if c' = 4 then st1.sigma 1
        else if c' = 5 then st1.rho 1
        else if c' = 2 then
          (op.Lambdas_Mtrx.mulVec
            ![op.Lambdas_vec ⬝ᵥ st0.Lambda,
              ((st0.Lambda 0 + st0.Lambda 1)
                - (0.5 * (st0.rho 0 ^ 2 + st0.sigma 0 ^ 2)
                  + 0.5 * (st0.rho 1 ^ 2 + st0.sigma 1 ^ 2)))
                + (0.5 * (st1.rho 0 ^ 2 + st1.sigma 0 ^ 2)
                  + 0.5 * (st1.rho 1 ^ 2 + st1.sigma 1 ^ 2))]) 1
        else vecs r c'
      else if r = iIn then
        if c' = 4 then st1.sigma 0
        else if c' = 5 then st1.rho 0
        else if c' = 2 then
          (op.Lambdas_Mtrx.mulVec
            ![op.Lambdas_vec ⬝ᵥ st0.Lambda,
              ((st0.Lambda 0 + st0.Lambda 1)
                - (0.5 * (st0.rho 0 ^ 2 + st0.sigma 0 ^ 2)
                  + 0.5 * (st0.rho 1 ^ 2 + st0.sigma 1 ^ 2)))
                + (0.5 * (st1.rho 0 ^ 2 + st1.sigma 0 ^ 2)
                  + 0.5 * (st1.rho 1 ^ 2 + st1.sigma 1 ^ 2))]) 0
        else vecs r c'
      else vecs r c' := rfl
  have hw : (![op.Lambdas_vec ⬝ᵥ st0.Lambda,
        ((st0.Lambda 0 + st0.Lambda 1)
          - (0.5 * (st0.rho 0 ^ 2 + st0.sigma 0 ^ 2)
            + 0.5 * (st0.rho 1 ^ 2 + st0.sigma 1 ^ 2)))
          + (0.5 * (st1.rho 0 ^ 2 + st1.sigma 0 ^ 2)
            + 0.5 * (st1.rho 1 ^ 2 + st1.sigma 1 ^ 2))] : Fin 2 → ℝ)
      = ![op.Lambdas_vec ⬝ᵥ st0.Lambda,
          ((st0.Lambda 0 + st0.Lambda 1) - (st0.Qs 0 + st0.Qs 1))
            + (st1.Qs 0 + st1.Qs 1)] := by
    funext i
    fin_cases i
    · rfl
    · show ((st0.Lambda 0 + st0.Lambda 1)
          - (0.5 * (st0.rho 0 ^ 2 + st0.sigma 0 ^ 2)
            + 0.5 * (st0.rho 1 ^ 2 + st0.sigma 1 ^ 2)))
          + (0.5 * (st1.rho 0 ^ 2 + st1.sigma 0 ^ 2)
            + 0.5 * (st1.rho 1 ^ 2 + st1.sigma 1 ^ 2))
        = ((st0.Lambda 0 + st0.Lambda 1) - (st0.Qs 0 + st0.Qs 1))
            + (st1.Qs 0 + st1.Qs 1)
      simp only [ResState.Qs]
      ring
  have happly : op.apply st0 =
      { Lambda := op.Lambdas_Mtrx.mulVec
          ![op.Lambdas_vec ⬝ᵥ st0.Lambda,
            ((st0.Lambda 0 + st0.Lambda 1) - (st0.Qs 0 + st0.Qs 1))
              + (st1.Qs 0 + st1.Qs 1)]
        l := st0.l, kappa := st0.kappa, eta := st0.eta
        sigma := st1.sigma, rho := st1.rho } := rfl
  refine ⟨?_, ?_, ?_⟩
  · rw [hflat, happly]
    refine ResState.ext ?_ ?_ ?_ ?_ ?_ ?_ <;> funext i <;> fin_cases i <;>
      simp only [ResState.ofVecs, Matrix.cons_val_zero, Matrix.cons_val_one,
        Matrix.head_cons, if_neg hne, if_pos rfl, eq_self_iff_true, if_true,
        hw] <;>
      simp [Ne.symm hne, hne, hst0, ResState.ofVecs]
  · intro r hrIn hrOut c
    rw [hflat]
    simp [hrIn, hrOut]
  · intro r
    rw [hflat]
    refine ⟨?_, ?_, ?_⟩ <;> by_cases hr : r = iOut <;> by_cases hr' : r = iIn <;>
      simp [hr, hr']

/-- C2 (amended): the flat phase-space vector of a `Poincare` system is the
q-block then the p-block with PER-PARTICLE TRIPLES `(l_i, eta_i, rho_i)` and
`(Lambda_i, kappa_i, sigma_i)` — not blockwise by variable — as the
`__getitem__` round trip shows; and every `apply_to_state_vector`-style
operator reads its input as 6 contiguous slots per particle in the fixed
per-body order `(kappa, eta, Lambda, l, sigma, rho)`, shown here for the
Keplerian, linear secular, eccentricity-resonance and inclination-resonance
operators. -/
theorem state_vector_layout :
    (∀ (ps : List PoincareParticle) (j : ℕ) (hj : j < ps.length),
        PoincareParticles.getitem (Poincare.initial_values ps) (3 * ps.length) j
          = { kappa := (ps.get ⟨j, hj⟩).kappa, eta := (ps.get ⟨j, hj⟩).eta
              Lambda := (ps.get ⟨j, hj⟩).Lambda, l := (ps.get ⟨j, hj⟩).l
              sigma := (ps.get ⟨j, hj⟩).sigma, rho := (ps.get ⟨j, hj⟩).rho }) ∧
    (∀ (n : ℕ) (G dt : ℝ) (m M : Fin n → ℝ) (vecs : Fin n → Fin 6 → ℝ),
        perBody (KeplerianEvolutionOperator.apply_to_state_vector G dt m M vecs)
          = KeplerianEvolutionOperator.apply G dt m M (perBody vecs)) ∧
    (∀ (n : ℕ) (op : LinearSecularEvolutionOperator n) (vecs : Fin n → Fin 6 → ℝ),
        SecularState.ofVecs (op.apply_to_state_vector vecs)
            = op.apply (SecularState.ofVecs vecs) ∧
          ∀ i, op.apply_to_state_vector vecs i 2 = vecs i 2 ∧
            op.apply_to_state_vector vecs i 3 = vecs i 3) ∧
    (∀ (n : ℕ) (op : LinearEccentricityResonancOperator) (iIn iOut : Fin n),
        iIn ≠ iOut → ∀ vecs : Fin n → Fin 6 → ℝ,
        ResState.ofVecs (op.apply_to_state_vector iIn iOut vecs) iIn iOut
            = op.apply (ResState.ofVecs vecs iIn iOut) ∧
          (∀ r, r ≠ iIn → r ≠ iOut → ∀ c,
              op.apply_to_state_vector iIn iOut vecs r c = vecs r c) ∧
          (∀ r, op.apply_to_state_vector iIn iOut vecs r 3 = vecs r 3 ∧
            op.apply_to_state_vector iIn iOut vecs r 4 = vecs r 4 ∧
            op.apply_to_state_vector iIn iOut vecs r 5 = vecs r 5)) ∧
    (∀ (n : ℕ) (op : LinearInclinationResonancOperator) (iIn iOut : Fin n),
        iIn ≠ iOut → ∀ vecs : Fin n → Fin 6 → ℝ,
        ResState.ofVecs (op.apply_to_state_vector iIn iOut vecs) iIn iOut
            = op.apply (ResState.ofVecs vecs iIn iOut) ∧
          (∀ r, r ≠ iIn → r ≠ iOut → ∀ c,
              op.apply_to_state_vector iIn iOut vecs r c = vecs r c) ∧
          (∀ r, op.apply_to_state_vector iIn iOut vecs r 0 = vecs r 0 ∧
            op.apply_to_state_vector iIn iOut vecs r 1 = vecs r 1 ∧
            op.apply_to_state_vector iIn iOut vecs r 3 = vecs r 3)) :=
  ⟨getitem_initial_values,
    fun _ G dt m M vecs => kepler_flat_layout G dt m M vecs,
    fun _ op vecs => linsec_flat_layout op vecs,
    fun _ op iIn iOut h vecs => ecc_flat_layout op iIn iOut h vecs,
    fun _ op iIn iOut h vecs => inc_flat_layout op iIn iOut h vecs⟩

/-- Witness for C2 at two concrete particles, concrete operators and a
concrete reshaped state vector. -/
theorem state_vector_layout_witness :
    ((0 : ℕ) < ([particleA, particleB] : List PoincareParticle).length) ∧
    ((0 : Fin 2) ≠ (1 : Fin 2)) ∧
    PoincareParticles.getitem (Poincare.initial_values [particleA, particleB])
        (3 * ([particleA, particleB] : List PoincareParticle).length) 0
      = { kappa := particleA.kappa, eta := particleA.eta, Lambda := particleA.Lambda
          l := particleA.l, sigma := particleA.sigma, rho := particleA.rho } ∧
    ResState.ofVecs (opE0.apply_to_state_vector 0 1 vecs0) 0 1
        = opE0.apply (ResState.ofVecs vecs0 0 1) ∧
    ResState.ofVecs (opI0.apply_to_state_vector 0 1 vecs0) 0 1
        = opI0.apply (ResState.ofVecs vecs0 0 1) := by
  have h1 : (0 : ℕ) < ([particleA, particleB] : List PoincareParticle).length := by simp
  have h2 : (0 : Fin 2) ≠ (1 : Fin 2) := by decide
  exact ⟨h1, h2, state_vector_layout.1 [particleA, particleB] 0 h1,
    (state_vector_layout.2.2.2.1 2 opE0 0 1 h2 vecs0).1,
    (state_vector_layout.2.2.2.2 2 opI0 0 1 h2 vecs0).1⟩
